import Mathlib

/-!
Shallow embedding of the telemetry relay / replay server (`server/server.js`).

The server keeps:
  * `players` — a JS `Map` from player name to the most recent sample,
    stamped with a server-assigned arrival time `t` (`players.set(p.name, { ...p, t: now })`);
  * `isRecording` / `currentReplayBuffer` — the VCR recorder state;
  * `savedReplays` — an in-memory array of sealed replays.

Endpoints modelled: `POST /` (ingest), `GET /data` (live poll with read-time
eviction at 5000 ms), `POST /record/start`, `POST /record/stop`,
`GET /replays` (metadata list) and `GET /replays/:id` (frame fetch).

The JS `Map` is modelled as an insertion-ordered association list; `Map.set`
replaces in place when the key exists and appends otherwise, and the
`forEach`-with-delete sweep of `GET /data` is a filter that keeps fresh
entries in order.  Handlers run to completion on the Node event loop, so the
server is a sequential transition system over this state.
-/

namespace Flowz

/-- A telemetry record as parsed from the client JSON.  Only the fields the
server reads are modelled: `name` (may be absent), the position components
(`none` stands for a missing or non-numeric field) and an optional
client-supplied timestamp field `t`. -/
structure PlayerRecord where
  name : Option String
  x : Option Int
  y : Option Int
  z : Option Int
  t : Option Nat
deriving DecidableEq

/-- The value stored in the live map: the spread `{ ...p, t: now }`, whose `t`
is always the server clock (any client `t` field is overwritten). -/
structure LivePlayer where
  name : Option String
  x : Option Int
  y : Option Int
  z : Option Int
  t : Nat
deriving DecidableEq

/-- `{ ...p, t: now }` — the record's fields with `t` replaced by the server
clock. -/
def storeRec (p : PlayerRecord) (now : Nat) : LivePlayer :=
  ⟨p.name, p.x, p.y, p.z, now⟩

/-- The live `players` map: insertion-ordered key/value list. -/
abbrev LiveMap := List (String × LivePlayer)

/-- `Map.set`: replace the entry with this key in place, or append. -/
def setEntry (m : LiveMap) (k : String) (v : LivePlayer) : LiveMap :=
  if m.any (fun e => e.1 = k) then
    m.map (fun e => if e.1 = k then (k, v) else e)
  else m ++ [(k, v)]

/-- `Map.get`: value of the first (only) entry with this key. -/
def lookupEntry (m : LiveMap) (k : String) : Option LivePlayer :=
  (m.find? (fun e => e.1 = k)).map (·.2)

/-- One recorded frame: `{ t: now, players: rawList }`. -/
structure Frame where
  t : Nat
  players : List PlayerRecord
deriving DecidableEq

/-- A sealed replay as pushed onto `savedReplays`. -/
structure Replay where
  id : String
  timestamp : Nat
  frames : List Frame
  duration : Nat
deriving DecidableEq

/-- The whole mutable server state. -/
structure ServerState where
  players : LiveMap
  isRecording : Bool
  currentReplayBuffer : List Frame
  savedReplays : List Replay
deriving DecidableEq

/-- State at process start. -/
def initState : ServerState := ⟨[], false, [], []⟩

/-- The parsed `data` payload: batch shape `{ players: [...] }` or the legacy
single-object shape. -/
inductive Payload where
  | batch (players : List PlayerRecord)
  | single (p : PlayerRecord)
deriving DecidableEq

/-- The body of a `POST /` request as the handler sees it: the `data` field
may be absent, may fail `JSON.parse`, or parses to a payload. -/
inductive IngestBody where
  | missingData
  | invalidJson
  | payload (p : Payload)
deriving DecidableEq

/-- JS truthiness of `p.name` (absent or empty string is falsy). -/
def hasName (p : PlayerRecord) : Bool :=
  match p.name with
  | some s => decide (s ≠ "")
  | none => false

/-- `if (p.name) players.set(p.name, { ...p, t: now })`. -/
def applyRecord (m : LiveMap) (p : PlayerRecord) (now : Nat) : LiveMap :=
  match p.name with
  | some s => if s = "" then m else setEntry m s (storeRec p now)
  | none => m

/-- Part A of the ingest handler: the live-map update for either shape. -/
def applyLive (m : LiveMap) (p : Payload) (now : Nat) : LiveMap :=
  match p with
  | .batch ps => ps.foldl (fun acc r => applyRecord acc r now) m
  | .single r => applyRecord m r now

/-- `parsedPayload.players || [parsedPayload]` — the raw list recorded in a
frame, with no validation. -/
def rawPlayers : Payload → List PlayerRecord
  | .batch ps => ps
  | .single r => [r]

/-- `POST /`: update the live map, then (iff recording) push one raw frame. -/
def ingest (s : ServerState) (body : IngestBody) (now : Nat) :
    ServerState × Except String Unit :=
  match body with
  | .missingData => (s, .error "Missing \"data\"")
  | .invalidJson => (s, .error "Invalid JSON")
  | .payload p =>
    let s1 := { s with players := applyLive s.players p now }
    let s2 :=
      if s1.isRecording then
        { s1 with currentReplayBuffer :=
            s1.currentReplayBuffer ++ [⟨now, rawPlayers p⟩] }
      else s1
    (s2, .ok ())

/-- `POST /record/start`. -/
def recordStart (s : ServerState) : ServerState × Except String Unit :=
  if s.isRecording then (s, .error "Already recording")
  else ({ s with isRecording := true, currentReplayBuffer := [] }, .ok ())

/-- The id generated at stop time: `replay_${Date.now()}`. -/
def replayId (now : Nat) : String := "replay_" ++ toString now

/-- `POST /record/stop`: flip the flag, and push a sealed replay only when
the buffer is non-empty; the response carries the generated id either way. -/
def recordStop (s : ServerState) (now : Nat) : ServerState × Except String String :=
  if s.isRecording then
    let sealed :=
      if s.currentReplayBuffer.length > 0 then
        s.savedReplays ++
          [⟨replayId now, now, s.currentReplayBuffer, s.currentReplayBuffer.length * 100⟩]
      else s.savedReplays
    ({ s with isRecording := false, savedReplays := sealed }, .ok (replayId now))
  else (s, .error "Not recording")

/-- Metadata served by `GET /replays`. -/
structure ReplayMeta where
  id : String
  timestamp : Nat
  frameCount : Nat
deriving DecidableEq

/-- `GET /replays`. -/
def listReplays (s : ServerState) : List ReplayMeta :=
  s.savedReplays.map (fun r => ⟨r.id, r.timestamp, r.frames.length⟩)

/-- `GET /replays/:id`: `savedReplays.find(r => r.id === id)`. -/
def getReplay (s : ServerState) (id : String) : Except String (List Frame) :=
  match s.savedReplays.find? (fun r => decide (r.id = id)) with
  | some r => .ok r.frames
  | none => .error "Replay not found"

/-- The hard-coded staleness window (ms). -/
def staleAfter : Nat := 5000

/-- The `forEach` sweep of `GET /data`: keep fresh entries in order, delete
the rest (JS `now - data.t < 5000`; with `Nat` truncated subtraction a stored
time in the future also reads as fresh, as it does in JS). -/
def sweep (now : Nat) (m : LiveMap) : LiveMap :=
  m.filter (fun e => decide (now - e.2.t < staleAfter))

/-- `GET /data`: evict stale entries and return the survivors' values. -/
def getData (s : ServerState) (now : Nat) : ServerState × List LivePlayer :=
  let kept := sweep now s.players
  ({ s with players := kept }, kept.map (·.2))

/-- One externally triggered operation, tagged with the wall-clock time at
which its handler runs. -/
inductive Op where
  | opIngest (body : IngestBody) (now : Nat)
  | opStart (now : Nat)
  | opStop (now : Nat)
  | opGetData (now : Nat)
deriving DecidableEq

/-- The wall-clock time of an operation. -/
def opNow : Op → Nat
  | .opIngest _ n => n
  | .opStart n => n
  | .opStop n => n
  | .opGetData n => n

/-- The state transition of one handler invocation. -/
def step (s : ServerState) : Op → ServerState
  | .opIngest b n => (ingest s b n).1
  | .opStart _ => (recordStart s).1
  | .opStop n => (recordStop s n).1
  | .opGetData n => (getData s n).1

/-- Run a sequence of handler invocations. -/
def run (s : ServerState) (ops : List Op) : ServerState := ops.foldl step s

/-- The operation times are non-decreasing, starting from `t`. -/
def timesFrom (t : Nat) : List Op → Bool
  | [] => true
  | op :: rest => decide (t ≤ opNow op) && timesFrom (opNow op) rest

/-- Frames are in non-decreasing `capturedAt` (`t`) order. -/
def framesSorted (fs : List Frame) : Prop :=
  List.Chain' (fun a b => a.t ≤ b.t) fs

instance : DecidablePred framesSorted := fun _ =>
  inferInstanceAs (Decidable (List.Chain' _ _))

/-- Drop the client-supplied timestamp field of a record. -/
def scrubRec (p : PlayerRecord) : PlayerRecord := { p with t := none }

/-- Drop client timestamp fields throughout a payload. -/
def scrubPayload : Payload → Payload
  | .batch ps => .batch (ps.map scrubRec)
  | .single p => .single (scrubRec p)

/-- Drop client timestamp fields from an ingest body. -/
def scrubBody : IngestBody → IngestBody
  | .payload p => .payload (scrubPayload p)
  | .missingData => .missingData
  | .invalidJson => .invalidJson

/-- Drop client timestamp fields from an operation. -/
def scrubOp : Op → Op
  | .opIngest b n => .opIngest (scrubBody b) n
  | op => op

/-- Run a sequence of batch-shaped ingests, each at its own time. -/
def ingestBatches (s : ServerState) (bs : List (List PlayerRecord × Nat)) :
    ServerState :=
  bs.foldl (fun st b => (ingest st (.payload (.batch b.1)) b.2).1) s

/-- The frame one recorded batch ingest produces. -/
def mkFrame (b : List PlayerRecord × Nat) : Frame := ⟨b.2, b.1⟩

/-- Recorder invariant at clock `t`: the active buffer is in capture order
with all frame times at most `t`, and every sealed replay is in capture
order. -/
def bufInv (t : Nat) (s : ServerState) : Prop :=
  framesSorted s.currentReplayBuffer
  ∧ (∀ f ∈ s.currentReplayBuffer, f.t ≤ t)
  ∧ ∀ r ∈ s.savedReplays, framesSorted r.frames

/-- Live-map invariant: keys are distinct and every stored value carries the
name it is keyed under. -/
def goodMap (m : LiveMap) : Prop :=
  (m.map Prod.fst).Nodup ∧ ∀ e ∈ m, e.2.name = some e.1

/-! ### Helper lemmas -/

theorem find?_append_none {α : Type} (p : α → Bool) :
    ∀ (l₁ l₂ : List α), (∀ a ∈ l₁, p a = false) →
      (l₁ ++ l₂).find? p = l₂.find? p
  | [], _, _ => rfl
  | a :: l₁, l₂, h => by
    have ha : p a = false := h a (List.mem_cons_self a l₁)
    simp only [List.cons_append, List.find?_cons, ha]
    exact find?_append_none p l₁ l₂ (fun b hb => h b (List.mem_cons_of_mem a hb))

theorem find?_append_some {α : Type} (p : α → Bool) (l₁ l₂ : List α) (a : α)
    (h : l₁.find? p = some a) : (l₁ ++ l₂).find? p = some a := by
  induction l₁ with
  | nil => simp [List.find?] at h
  | cons b l ih =>
    simp only [List.find?_cons] at h ⊢
    cases hb : p b with
    | true => simpa [hb] using h
    | false => rw [hb] at h; simpa [hb] using ih h

theorem applyRecord_of_not_hasName (m : LiveMap) (q : PlayerRecord) (now : Nat)
    (h : hasName q = false) : applyRecord m q now = m := by
  unfold hasName at h
  unfold applyRecord
  match hq : q.name with
  | none => rfl
  | some s =>
    rw [hq] at h
    simp only [decide_eq_false_iff_not, Decidable.not_not] at h
    simp [h]

theorem applyLive_batch_of_all_not_hasName (now : Nat) :
    ∀ (ps : List PlayerRecord) (m : LiveMap),
      (∀ q ∈ ps, hasName q = false) → applyLive m (.batch ps) now = m
  | [], _, _ => rfl
  | q :: ps, m, h => by
    simp only [applyLive, List.foldl_cons]
    rw [applyRecord_of_not_hasName m q now (h q (List.mem_cons_self q ps))]
    exact applyLive_batch_of_all_not_hasName now ps m
      (fun r hr => h r (List.mem_cons_of_mem q hr))

theorem lookupEntry_map_overwrite (k : String) (v : LivePlayer) :
    ∀ (m : LiveMap), m.any (fun e => e.1 = k) = true →
      lookupEntry (m.map (fun e => if e.1 = k then (k, v) else e)) k = some v
  | [], h => by simp at h
  | e :: m, h => by
    by_cases he : e.1 = k
    · simp [lookupEntry, List.find?_cons, he]
    · have hm : m.any (fun e => e.1 = k) = true := by
        simp only [List.any_cons, Bool.or_eq_true] at h
        rcases h with h | h
        · exact absurd (of_decide_eq_true h) he
        · exact h
      simp only [List.map_cons, if_neg he]
      unfold lookupEntry
      rw [List.find?_cons_of_neg _ (by simp [he])]
      exact lookupEntry_map_overwrite k v m hm

theorem lookupEntry_setEntry (m : LiveMap) (k : String) (v : LivePlayer) :
    lookupEntry (setEntry m k v) k = some v := by
  unfold setEntry
  by_cases h : m.any (fun e => e.1 = k) = true
  · rw [if_pos h]
    exact lookupEntry_map_overwrite k v m h
  · rw [if_neg h]
    have hall : ∀ e ∈ m, (fun e : String × LivePlayer => decide (e.1 = k)) e = false := by
      intro e he
      by_contra hc
      apply h
      rw [List.any_eq_true]
      exact ⟨e, he, by revert hc; simp⟩
    unfold lookupEntry
    rw [find?_append_none _ m [(k, v)] hall]
    simp [List.find?]

theorem applyRecord_eq_setEntry (m : LiveMap) (q : PlayerRecord) (k : String)
    (now : Nat) (hname : q.name = some k) (hk : k ≠ "") :
    applyRecord m q now = setEntry m k (storeRec q now) := by
  unfold applyRecord
  rw [hname]
  simp [hk]

theorem applyRecord_lookup (m : LiveMap) (q : PlayerRecord) (k : String) (now : Nat)
    (hname : q.name = some k) (hk : k ≠ "") :
    lookupEntry (applyRecord m q now) k = some (storeRec q now) := by
  rw [applyRecord_eq_setEntry m q k now hname hk]
  exact lookupEntry_setEntry m k (storeRec q now)

theorem setEntry_key_unique (m : LiveMap) (k : String) (v : LivePlayer) :
    ∀ e ∈ setEntry m k v, e.1 = k → e = (k, v) := by
  intro e he hek
  unfold setEntry at he
  by_cases h : m.any (fun e => e.1 = k) = true
  · rw [if_pos h] at he
    rcases List.mem_map.mp he with ⟨e', _, hfe⟩
    by_cases he' : e'.1 = k
    · rw [if_pos he'] at hfe; exact hfe.symm
    · rw [if_neg he'] at hfe; rw [← hfe] at hek; exact absurd hek he'
  · rw [if_neg h] at he
    rcases List.mem_append.mp he with hm | hl
    · exfalso
      apply h
      rw [List.any_eq_true]
      exact ⟨e, hm, by simp [hek]⟩
    · simpa using hl

theorem setEntry_exists_key (m : LiveMap) (k : String) (v : LivePlayer) :
    (k, v) ∈ setEntry m k v := by
  unfold setEntry
  by_cases h : m.any (fun e => e.1 = k) = true
  · rw [if_pos h]
    rcases List.any_eq_true.mp h with ⟨e, he, hek⟩
    have hek' : e.1 = k := of_decide_eq_true hek
    exact List.mem_map.mpr ⟨e, he, by rw [if_pos hek']⟩
  · rw [if_neg h]
    exact List.mem_append.mpr (Or.inr (by simp))

theorem mem_sweep {now : Nat} {m : LiveMap} {e : String × LivePlayer} :
    e ∈ sweep now m ↔ e ∈ m ∧ now - e.2.t < staleAfter := by
  unfold sweep
  rw [List.mem_filter]
  simp

theorem lookupEntry_of_all_key (k : String) (v : LivePlayer) :
    ∀ (l : LiveMap), (∀ e ∈ l, e.1 = k → e = (k, v)) →
      (∃ e ∈ l, e.1 = k) → lookupEntry l k = some v
  | [], _, hex => by rcases hex with ⟨e, he, _⟩; cases he
  | a :: l, hall, hex => by
    by_cases ha : a.1 = k
    · have hav : a = (k, v) := hall a (List.mem_cons_self a l) ha
      subst hav
      simp [lookupEntry, List.find?_cons]
    · unfold lookupEntry
      rw [List.find?_cons_of_neg _ (by simp [ha])]
      apply lookupEntry_of_all_key k v l
        (fun e he hek => hall e (List.mem_cons_of_mem a he) hek)
      rcases hex with ⟨e, he, hek⟩
      rcases List.mem_cons.mp he with rfl | he'
      · exact absurd hek ha
      · exact ⟨e, he', hek⟩

theorem lookupEntry_eq_none (l : LiveMap) (k : String)
    (h : ∀ e ∈ l, e.1 ≠ k) : lookupEntry l k = none := by
  unfold lookupEntry
  rw [List.find?_eq_none.mpr (fun e he => by simp [h e he])]
  rfl

theorem ingest_players (s : ServerState) (p : Payload) (now : Nat) :
    (ingest s (.payload p) now).1.players = applyLive s.players p now := by
  simp only [ingest]
  split <;> rfl

/-! ### Claim theorems -/

/-- C4: `start()` while already Recording is rejected with `AlreadyRecording`
and `stop()` while Idle is rejected with `NotRecording`; in both failure
cases the entire server state — recording flag, active buffer, live map and
catalog — is returned unchanged. -/
theorem C4_misuse_rejected_no_state_change (s : ServerState) (now : Nat) :
    (s.isRecording = true →
      recordStart s = (s, Except.error "Already recording"))
    ∧ (s.isRecording = false →
      recordStop s now = (s, Except.error "Not recording")) := by
  constructor
  · intro h; simp [recordStart, h]
  · intro h; simp [recordStop, h]

theorem C4_witness :
    recordStart ⟨[], true, [], []⟩
        = (⟨[], true, [], []⟩, Except.error "Already recording")
    ∧ recordStop ⟨[], false, [], []⟩ 7
        = (⟨[], false, [], []⟩, Except.error "Not recording") :=
  ⟨(C4_misuse_rejected_no_state_change ⟨[], true, [], []⟩ 7).1 rfl,
   (C4_misuse_rejected_no_state_change ⟨[], false, [], []⟩ 7).2 rfl⟩

/-- C10: while Recording, every ingest whose payload parses appends exactly
one frame holding the raw record list unvalidated (the batch list, or the
single object wrapped in a list), the request succeeds, and when no record
carries a usable name — so nothing was applied to the live table — the frame
is appended anyway with the table unchanged. -/
theorem C10_raw_frame_recorded (s : ServerState) (p : Payload) (now : Nat)
    (hrec : s.isRecording = true) :
    (ingest s (.payload p) now).1.currentReplayBuffer
        = s.currentReplayBuffer ++ [⟨now, rawPlayers p⟩]
    ∧ (ingest s (.payload p) now).2 = Except.ok ()
    ∧ ((∀ q ∈ rawPlayers p, hasName q = false) →
        (ingest s (.payload p) now).1.players = s.players) := by
  refine ⟨by simp [ingest, hrec], rfl, ?_⟩
  intro hnone
  cases p with
  | batch ps =>
    simp [ingest, hrec, applyLive_batch_of_all_not_hasName now ps s.players hnone]
  | single q =>
    have hq : hasName q = false := hnone q (by simp [rawPlayers])
    simp [ingest, hrec, applyLive, applyRecord_of_not_hasName s.players q now hq]

theorem C10_witness :
    (ingest ⟨[], true, [], []⟩
        (.payload (.single ⟨none, none, none, none, none⟩)) 5).1.currentReplayBuffer
      = [⟨5, [⟨none, none, none, none, none⟩]⟩]
    ∧ (ingest ⟨[], true, [], []⟩
        (.payload (.single ⟨none, none, none, none, none⟩)) 5).1.players = [] := by
  have h := C10_raw_frame_recorded ⟨[], true, [], []⟩
    (.single ⟨none, none, none, none, none⟩) 5 rfl
  exact ⟨by simpa using h.1, h.2.2 (by decide)⟩

/-- C2 counterexample: a start → stop cycle with no intervening ingest.  The
stop response still reports an id, but nothing is pushed into the catalog
and fetching that id fails — the claim that a zero-frame replay is cataloged
and retrievable is false. -/
theorem C2_counterexample :
    (recordStop (recordStart initState).1 42).2 = Except.ok "replay_42"
    ∧ (recordStop (recordStart initState).1 42).1.savedReplays = []
    ∧ getReplay (recordStop (recordStart initState).1 42).1 "replay_42"
        = Except.error "Replay not found" :=
  ⟨rfl, rfl, rfl⟩

/-- C2 amended: a successful `stop()` seals a ReplayRecord only when the
active buffer is non-empty; in that case the record holding exactly the
buffered frames is appended to the catalog, the response id names it, and —
provided no earlier replay already uses that id — a subsequent get with the
returned id succeeds and returns the recorded frames.  An empty-buffer stop
catalogs nothing and its returned id resolves to `NotFound`. -/
theorem C2_stop_nonempty_seals (s : ServerState) (now : Nat)
    (hrec : s.isRecording = true) (hne : s.currentReplayBuffer ≠ [])
    (hfresh : ∀ r ∈ s.savedReplays, r.id ≠ replayId now) :
    (recordStop s now).2 = Except.ok (replayId now)
    ∧ (recordStop s now).1.savedReplays
        = s.savedReplays ++ [⟨replayId now, now, s.currentReplayBuffer,
            s.currentReplayBuffer.length * 100⟩]
    ∧ getReplay (recordStop s now).1 (replayId now)
        = Except.ok s.currentReplayBuffer := by
  have hlen : s.currentReplayBuffer.length > 0 := List.length_pos.mpr hne
  refine ⟨by simp [recordStop, hrec], by simp [recordStop, hrec, hlen], ?_⟩
  unfold getReplay
  have hsaved : (recordStop s now).1.savedReplays
      = s.savedReplays ++ [⟨replayId now, now, s.currentReplayBuffer,
          s.currentReplayBuffer.length * 100⟩] := by
    simp [recordStop, hrec, hlen]
  rw [hsaved]
  rw [find?_append_none _ s.savedReplays _
    (fun r hr => by simpa using hfresh r hr)]
  simp [List.find?]

theorem C2_witness :
    getReplay (recordStop ⟨[], true, [⟨1, []⟩], []⟩ 9).1 (replayId 9)
      = Except.ok [⟨1, []⟩] :=
  (C2_stop_nonempty_seals ⟨[], true, [⟨1, []⟩], []⟩ 9 rfl
    (by simp) (by simp)).2.2

/-- C3 counterexample: a single-object payload with a name but no position
fields at all is accepted (status ok) and stored in the live table, where
the claim requires `MalformedPayload`; field-level validation does not
happen. -/
theorem C3_counterexample :
    (ingest initState (.payload (.single ⟨some "A", none, none, none, none⟩)) 0).2
      = Except.ok ()
    ∧ lookupEntry (ingest initState
        (.payload (.single ⟨some "A", none, none, none, none⟩)) 0).1.players "A"
      = some (storeRec ⟨some "A", none, none, none, none⟩ 0) :=
  ⟨rfl, by decide⟩

/-- C3 amended: ingest fails exactly when the `data` field is missing or its
content is not parseable JSON, and in those cases the state is untouched; no
field-level validation occurs — in batch mode a record without a (non-empty)
name is skipped silently while the rest of the batch proceeds, and any record
with a non-empty name is stored regardless of its position fields. -/
theorem C3_parse_errors_only (s : ServerState) (body : IngestBody) (now : Nat)
    (m : LiveMap) (q : PlayerRecord) (qs : List PlayerRecord) (k : String) :
    ((ingest s body now).2 = Except.ok () ↔ ∃ p, body = .payload p)
    ∧ (body = .missingData ∨ body = .invalidJson → (ingest s body now).1 = s)
    ∧ (hasName q = false →
        applyLive m (.batch (q :: qs)) now = applyLive m (.batch qs) now)
    ∧ (q.name = some k → k ≠ "" →
        lookupEntry (applyRecord m q now) k = some (storeRec q now)) := by
  refine ⟨?_, ?_, ?_, fun h1 h2 => applyRecord_lookup m q k now h1 h2⟩
  · cases body with
    | missingData => simp [ingest]
    | invalidJson => simp [ingest]
    | payload p => simp [ingest]
  · rintro (rfl | rfl) <;> rfl
  · intro hq
    simp only [applyLive, List.foldl_cons]
    rw [applyRecord_of_not_hasName m q now hq]

/-- C1 counterexample: a sample put at `t0 = 0` and polled at `t1 = 5000`
sits exactly on the staleness boundary: `t1 - t0 > staleAfter` is false, yet
the poll excludes the sample and evicts it (the handler keeps only entries
with `now - t < 5000`, so age exactly 5000 is already dropped). -/
theorem C1_counterexample :
    ¬ ((5000 : Nat) - 0 > staleAfter)
    ∧ (getData (ingest initState
        (.payload (.single ⟨some "A", some 1, some 2, some 3, none⟩)) 0).1 5000).2 = []
    ∧ (getData (ingest initState
        (.payload (.single ⟨some "A", some 1, some 2, some 3, none⟩)) 0).1 5000).1.players
        = [] :=
  ⟨by decide, by decide, by decide⟩

/-- C1 amended: a poll at `t1` of a sample put at `t0` excludes it iff
`t1 - t0 ≥ staleAfter` (strict `<` keeps it; age exactly `staleAfter` is
already excluded), and exclusion is eviction: when stale, no entry for that
id survives in the table (so `size()` no longer counts it), and the poll
output is exactly the values of the surviving table. -/
theorem C1_eviction_boundary (s : ServerState) (r : PlayerRecord) (k : String)
    (t0 t1 : Nat) (hname : r.name = some k) (hk : k ≠ "") :
    ((getData (ingest s (.payload (.single r)) t0).1 t1).2
        = ((getData (ingest s (.payload (.single r)) t0).1 t1).1.players).map (·.2))
    ∧ (t1 - t0 < staleAfter →
        lookupEntry (getData (ingest s (.payload (.single r)) t0).1 t1).1.players k
          = some (storeRec r t0)
        ∧ storeRec r t0 ∈ (getData (ingest s (.payload (.single r)) t0).1 t1).2)
    ∧ (staleAfter ≤ t1 - t0 →
        lookupEntry (getData (ingest s (.payload (.single r)) t0).1 t1).1.players k
          = none
        ∧ ((getData (ingest s (.payload (.single r)) t0).1 t1).1.players).filter
            (fun e => e.1 = k) = []) := by
  have hplayers : (ingest s (.payload (.single r)) t0).1.players
      = setEntry s.players k (storeRec r t0) := by
    rw [ingest_players]
    exact applyRecord_eq_setEntry s.players r k t0 hname hk
  have hget1 : (getData (ingest s (.payload (.single r)) t0).1 t1).1.players
      = sweep t1 (setEntry s.players k (storeRec r t0)) := by
    rw [← hplayers]; rfl
  have hget2 : (getData (ingest s (.payload (.single r)) t0).1 t1).2
      = (sweep t1 (setEntry s.players k (storeRec r t0))).map (·.2) := by
    rw [← hplayers]; rfl
  refine ⟨by rw [hget1, hget2], ?_, ?_⟩
  · intro hfresh
    have hmem : (k, storeRec r t0) ∈ sweep t1 (setEntry s.players k (storeRec r t0)) :=
      mem_sweep.mpr ⟨setEntry_exists_key s.players k (storeRec r t0), hfresh⟩
    constructor
    · rw [hget1]
      apply lookupEntry_of_all_key k (storeRec r t0)
      · intro e he hek
        exact setEntry_key_unique s.players k (storeRec r t0) e (mem_sweep.mp he).1 hek
      · exact ⟨(k, storeRec r t0), hmem, rfl⟩
    · rw [hget2]
      exact List.mem_map.mpr ⟨(k, storeRec r t0), hmem, rfl⟩
  · intro hstale
    have hnokey : ∀ e ∈ sweep t1 (setEntry s.players k (storeRec r t0)), e.1 ≠ k := by
      intro e he hek
      rcases mem_sweep.mp he with ⟨hms, hfresh⟩
      have hev : e = (k, storeRec r t0) :=
        setEntry_key_unique s.players k (storeRec r t0) e hms hek
      rw [hev] at hfresh
      exact absurd hfresh (by simp only [storeRec]; omega)
    constructor
    · rw [hget1]
      exact lookupEntry_eq_none _ k hnokey
    · rw [hget1]
      rw [List.filter_eq_nil_iff]
      intro e he
      simp [hnokey e he]

theorem C1_witness :
    lookupEntry (getData (ingest initState
        (.payload (.single ⟨some "C", some 0, some 0, some 0, none⟩)) 10).1 100).1.players "C"
      = some (storeRec ⟨some "C", some 0, some 0, some 0, none⟩ 10) :=
  ((C1_eviction_boundary initState ⟨some "C", some 0, some 0, some 0, none⟩ "C" 10 100
    rfl (by decide)).2.1 (by decide)).1

theorem C3_witness :
    lookupEntry (applyRecord [] ⟨some "B", none, some 2, none, none⟩ 3) "B"
      = some (storeRec ⟨some "B", none, some 2, none, none⟩ 3) :=
  (C3_parse_errors_only initState .missingData 3 []
    ⟨some "B", none, some 2, none, none⟩ [] "B").2.2.2 rfl (by decide)

/-! ### Client timestamps never influence the live table (C7) -/

theorem applyRecord_scrub (m : LiveMap) (q : PlayerRecord) (now : Nat) :
    applyRecord m (scrubRec q) now = applyRecord m q now := by
  cases q with
  | mk name x y z t =>
    cases name with
    | none => rfl
    | some s => rfl

theorem applyLive_scrub (now : Nat) : ∀ (p : Payload) (m : LiveMap),
    applyLive m (scrubPayload p) now = applyLive m p now
  | .single q, m => applyRecord_scrub m q now
  | .batch [], _ => rfl
  | .batch (q :: ps), m => by
    simp only [scrubPayload, List.map_cons, applyLive, List.foldl_cons]
    rw [applyRecord_scrub m q now]
    exact applyLive_scrub now (.batch ps) (applyRecord m q now)

theorem recordStart_players (s : ServerState) :
    (recordStart s).1.players = s.players := by
  unfold recordStart; split <;> rfl

theorem recordStop_players (s : ServerState) (now : Nat) :
    (recordStop s now).1.players = s.players := by
  unfold recordStop; split <;> rfl

theorem ingest_body_players (s : ServerState) (b : IngestBody) (now : Nat) :
    (ingest s b now).1.players = applyLive s.players (match b with
      | .payload p => p
      | _ => .batch []) now := by
  cases b with
  | missingData => rfl
  | invalidJson => rfl
  | payload p => exact ingest_players s p now

theorem step_players_scrub (s1 s2 : ServerState) (op1 op2 : Op)
    (hp : s1.players = s2.players) (hop : scrubOp op1 = scrubOp op2) :
    (step s1 op1).players = (step s2 op2).players := by
  cases op1 with
  | opIngest b1 n1 =>
    cases op2 with
    | opIngest b2 n2 =>
      simp only [scrubOp, Op.opIngest.injEq] at hop
      obtain ⟨hb, hn⟩ := hop
      subst hn
      cases b1 with
      | missingData =>
        cases b2 with
        | missingData => simpa [step, ingest] using hp
        | invalidJson => simpa [step, ingest] using hp
        | payload p2 => exact absurd hb (by cases p2 <;> simp [scrubBody])
      | invalidJson =>
        cases b2 with
        | missingData => simpa [step, ingest] using hp
        | invalidJson => simpa [step, ingest] using hp
        | payload p2 => exact absurd hb (by cases p2 <;> simp [scrubBody])
      | payload p1 =>
        cases b2 with
        | missingData => exact absurd hb (by cases p1 <;> simp [scrubBody])
        | invalidJson => exact absurd hb (by cases p1 <;> simp [scrubBody])
        | payload p2 =>
          simp only [scrubBody, IngestBody.payload.injEq] at hb
          show (ingest s1 (.payload p1) n1).1.players
              = (ingest s2 (.payload p2) n1).1.players
          rw [ingest_players, ingest_players, hp,
            ← applyLive_scrub n1 p1, ← applyLive_scrub n1 p2, hb]
    | opStart n2 => exact absurd hop (by simp [scrubOp])
    | opStop n2 => exact absurd hop (by simp [scrubOp])
    | opGetData n2 => exact absurd hop (by simp [scrubOp])
  | opStart n1 =>
    cases op2 with
    | opIngest b2 n2 => exact absurd hop (by simp [scrubOp])
    | opStart n2 => simpa [step, recordStart_players] using hp
    | opStop n2 => exact absurd hop (by simp [scrubOp])
    | opGetData n2 => exact absurd hop (by simp [scrubOp])
  | opStop n1 =>
    cases op2 with
    | opIngest b2 n2 => exact absurd hop (by simp [scrubOp])
    | opStart n2 => exact absurd hop (by simp [scrubOp])
    | opStop n2 => simpa [step, recordStop_players] using hp
    | opGetData n2 => exact absurd hop (by simp [scrubOp])
  | opGetData n1 =>
    cases op2 with
    | opIngest b2 n2 => exact absurd hop (by simp [scrubOp])
    | opStart n2 => exact absurd hop (by simp [scrubOp])
    | opStop n2 => exact absurd hop (by simp [scrubOp])
    | opGetData n2 =>
      simp only [scrubOp, Op.opGetData.injEq] at hop
      subst hop
      show (getData s1 n1).1.players = (getData s2 n1).1.players
      simp [getData, sweep, hp]

theorem run_players_scrub : ∀ (ops1 ops2 : List Op) (s1 s2 : ServerState),
    s1.players = s2.players → ops1.map scrubOp = ops2.map scrubOp →
    (run s1 ops1).players = (run s2 ops2).players
  | [], [], _, _, hp, _ => hp
  | [], _ :: _, _, _, _, h => by cases h
  | _ :: _, [], _, _, _, h => by cases h
  | op1 :: ops1, op2 :: ops2, s1, s2, hp, h => by
    injection h with h1 h2
    exact run_players_scrub ops1 ops2 (step s1 op1) (step s2 op2)
      (step_players_scrub s1 s2 op1 op2 hp h1) h2

/-- C7: `receivedAt` is server-assigned.  Two operation sequences that agree
after erasing every client-supplied `t` field produce identical live-table
state, and therefore identical staleness behaviour on any later poll —
client timestamps never influence what is stored or when it is evicted. -/
theorem C7_client_timestamps_ignored (ops1 ops2 : List Op) (t : Nat)
    (h : ops1.map scrubOp = ops2.map scrubOp) :
    (run initState ops1).players = (run initState ops2).players
    ∧ (getData (run initState ops1) t).2 = (getData (run initState ops2) t).2 := by
  have hp := run_players_scrub ops1 ops2 initState initState rfl h
  refine ⟨hp, ?_⟩
  show ((sweep t (run initState ops1).players).map (·.2))
      = ((sweep t (run initState ops2).players).map (·.2))
  rw [hp]

theorem C7_witness :
    (run initState [.opIngest (.payload (.single
        ⟨some "E", some 1, some 2, some 3, some 999999⟩)) 4]).players
      = (run initState [.opIngest (.payload (.single
        ⟨some "E", some 1, some 2, some 3, some 0⟩)) 4]).players :=
  (C7_client_timestamps_ignored
    [.opIngest (.payload (.single ⟨some "E", some 1, some 2, some 3, some 999999⟩)) 4]
    [.opIngest (.payload (.single ⟨some "E", some 1, some 2, some 3, some 0⟩)) 4]
    0 (by decide)).1

/-! ### Catalog behaviour on id collision (C9) -/

theorem getReplay_of_savedReplays_append (s s' : ServerState) (tail : List Replay)
    (id : String) (fs : List Frame)
    (hs : s'.savedReplays = s.savedReplays ++ tail)
    (h : getReplay s id = Except.ok fs) :
    getReplay s' id = Except.ok fs := by
  unfold getReplay at h ⊢
  rw [hs]
  cases hf : s.savedReplays.find? (fun r => decide (r.id = id)) with
  | none => rw [hf] at h; exact Except.noConfusion h
  | some r =>
    rw [hf] at h
    rw [find?_append_some _ _ tail r hf]
    exact h

/-- C9 counterexample: two recordings stopped at the same millisecond get
the same id.  The catalog keeps both records (push, not overwrite) and a get
for that id returns the OLDER record's frames, not the newer one's. -/
theorem C9_counterexample :
    (run initState [.opStart 0, .opIngest (.payload (.batch [])) 1, .opStop 5,
        .opStart 5, .opIngest (.payload (.batch [])) 2,
        .opIngest (.payload (.batch [])) 3, .opStop 5]).savedReplays
      = [⟨"replay_5", 5, [⟨1, []⟩], 100⟩, ⟨"replay_5", 5, [⟨2, []⟩, ⟨3, []⟩], 200⟩]
    ∧ getReplay (run initState [.opStart 0, .opIngest (.payload (.batch [])) 1,
        .opStop 5, .opStart 5, .opIngest (.payload (.batch [])) 2,
        .opIngest (.payload (.batch [])) 3, .opStop 5]) "replay_5"
      = Except.ok [⟨1, []⟩] :=
  ⟨rfl, rfl⟩

/-- C9 amended: sealing into the catalog always succeeds, but a colliding id
is appended alongside the existing record rather than overwriting it, and a
subsequent get for that id returns the OLDER (first-stored) record's frames
unchanged. -/
theorem C9_store_appends_older_wins (s : ServerState) (now : Nat) (fs : List Frame)
    (hrec : s.isRecording = true) (hne : s.currentReplayBuffer ≠ []) :
    (recordStop s now).1.savedReplays
      = s.savedReplays ++ [⟨replayId now, now, s.currentReplayBuffer,
          s.currentReplayBuffer.length * 100⟩]
    ∧ (getReplay s (replayId now) = Except.ok fs →
        getReplay (recordStop s now).1 (replayId now) = Except.ok fs) := by
  have hlen : s.currentReplayBuffer.length > 0 := List.length_pos.mpr hne
  have hsaved : (recordStop s now).1.savedReplays
      = s.savedReplays ++ [⟨replayId now, now, s.currentReplayBuffer,
          s.currentReplayBuffer.length * 100⟩] := by
    simp [recordStop, hrec, hlen]
  exact ⟨hsaved,
    fun h => getReplay_of_savedReplays_append s _ _ _ fs hsaved h⟩

theorem C9_witness :
    getReplay (recordStop
        ⟨[], true, [⟨2, []⟩], [⟨"replay_9", 1, [⟨1, []⟩], 100⟩]⟩ 9).1 (replayId 9)
      = Except.ok [⟨1, []⟩] :=
  (C9_store_appends_older_wins
    ⟨[], true, [⟨2, []⟩], [⟨"replay_9", 1, [⟨1, []⟩], 100⟩]⟩ 9 [⟨1, []⟩]
    rfl (by simp)).2 (by rfl)

/-! ### A full start → ingest* → stop cycle (C5) -/

theorem ingest_buffer_recording (s : ServerState) (p : Payload) (n : Nat)
    (hrec : s.isRecording = true) :
    (ingest s (.payload p) n).1.currentReplayBuffer
      = s.currentReplayBuffer ++ [⟨n, rawPlayers p⟩] := by
  simp [ingest, hrec]

theorem ingest_payload_flags (s : ServerState) (p : Payload) (n : Nat) :
    (ingest s (.payload p) n).1.isRecording = s.isRecording
    ∧ (ingest s (.payload p) n).1.savedReplays = s.savedReplays := by
  simp only [ingest]
  split <;> exact ⟨rfl, rfl⟩

theorem ingestBatches_recording : ∀ (bs : List (List PlayerRecord × Nat))
    (s : ServerState), s.isRecording = true →
    (ingestBatches s bs).isRecording = true
    ∧ (ingestBatches s bs).currentReplayBuffer
        = s.currentReplayBuffer ++ bs.map mkFrame
    ∧ (ingestBatches s bs).savedReplays = s.savedReplays
  | [], s, hrec => ⟨hrec, by simp [ingestBatches], rfl⟩
  | b :: bs, s, hrec => by
    have hstep := ingest_payload_flags s (.batch b.1) b.2
    have hbuf := ingest_buffer_recording s (.batch b.1) b.2 hrec
    have hih := ingestBatches_recording bs
      (ingest s (.payload (.batch b.1)) b.2).1 (hstep.1.trans hrec)
    rw [show ingestBatches s (b :: bs)
        = ingestBatches (ingest s (.payload (.batch b.1)) b.2).1 bs from rfl]
    refine ⟨hih.1, ?_, hih.2.2.trans hstep.2⟩
    rw [hih.2.1, hbuf]
    simp [mkFrame, rawPlayers, List.append_assoc]

/-- C5: from an Idle recorder, a full cycle of `start()`, then `N ≥ 1`
ingest calls each carrying one batch at non-decreasing times, then `stop()`,
appends exactly one new ReplayRecord to the catalog; its frames are exactly
the `N` per-ingest frames (so `frameCount = N`) in non-decreasing
`capturedAt` order. -/
theorem C5_cycle_one_replay (s : ServerState) (bs : List (List PlayerRecord × Nat))
    (tstop : Nat) (hIdle : s.isRecording = false) (hN : bs ≠ [])
    (hchain : List.Chain' (· ≤ ·) (bs.map Prod.snd)) :
    (recordStop (ingestBatches (recordStart s).1 bs) tstop).1.savedReplays
      = s.savedReplays ++ [⟨replayId tstop, tstop, bs.map mkFrame, bs.length * 100⟩]
    ∧ (bs.map mkFrame).length = bs.length
    ∧ framesSorted (bs.map mkFrame) := by
  have hstart : (recordStart s).1
      = { s with isRecording := true, currentReplayBuffer := [] } := by
    simp [recordStart, hIdle]
  have hmid := ingestBatches_recording bs (recordStart s).1 (by rw [hstart])
  have hbuf : (ingestBatches (recordStart s).1 bs).currentReplayBuffer
      = bs.map mkFrame := by
    rw [hmid.2.1, hstart]
    simp
  have hsaved : (ingestBatches (recordStart s).1 bs).savedReplays
      = s.savedReplays := by
    rw [hmid.2.2, hstart]
  have hlen : (ingestBatches (recordStart s).1 bs).currentReplayBuffer.length > 0 := by
    rw [hbuf, List.length_map]
    exact List.length_pos.mpr hN
  refine ⟨?_, List.length_map _ _, ?_⟩
  · simp only [recordStop, hmid.1, if_true, hlen, if_pos]
    rw [hbuf, hsaved, List.length_map]
  · unfold framesSorted
    rw [List.chain'_map]
    rw [List.chain'_map] at hchain
    exact hchain

theorem C5_witness :
    (recordStop (ingestBatches (recordStart initState).1
        [([], 1), ([], 2)]) 3).1.savedReplays
      = [⟨replayId 3, 3, [⟨1, []⟩, ⟨2, []⟩], 200⟩] := by
  have h := C5_cycle_one_replay initState [([], 1), ([], 2)] 3 rfl
    (by simp) (by simp [List.chain'_cons])
  simpa [mkFrame] using h.1

/-! ### Sealed replays are immutable and capture-ordered (C8) -/

theorem step_savedReplays (s : ServerState) (op : Op) :
    ∃ tail, (step s op).savedReplays = s.savedReplays ++ tail := by
  cases op with
  | opIngest b n =>
    refine ⟨[], ?_⟩
    cases b with
    | missingData => simp [step, ingest]
    | invalidJson => simp [step, ingest]
    | payload p =>
      show (ingest s (.payload p) n).1.savedReplays = s.savedReplays ++ []
      simp [(ingest_payload_flags s p n).2]
  | opStart n =>
    refine ⟨[], ?_⟩
    simp only [step, recordStart]
    split <;> simp
  | opStop n =>
    by_cases h : s.isRecording = true
    · by_cases hl : s.currentReplayBuffer.length > 0
      · exact ⟨[⟨replayId n, n, s.currentReplayBuffer,
          s.currentReplayBuffer.length * 100⟩], by simp [step, recordStop, h, hl]⟩
      · exact ⟨[], by simp [step, recordStop, h, hl]⟩
    · exact ⟨[], by simp [step, recordStop, h]⟩
  | opGetData n => exact ⟨[], by simp [step, getData]⟩

theorem bufInv_step (t : Nat) (s : ServerState) (op : Op)
    (hinv : bufInv t s) (ht : t ≤ opNow op) : bufInv (opNow op) (step s op) := by
  obtain ⟨hsort, hbound, hsaved⟩ := hinv
  cases op with
  | opIngest b n =>
    cases b with
    | missingData => exact ⟨hsort, fun f hf => le_trans (hbound f hf) ht, hsaved⟩
    | invalidJson => exact ⟨hsort, fun f hf => le_trans (hbound f hf) ht, hsaved⟩
    | payload p =>
      by_cases hrec : s.isRecording = true
      · have hbuf := ingest_buffer_recording s p n hrec
        have hflags := ingest_payload_flags s p n
        refine ⟨?_, ?_, ?_⟩
        · show framesSorted (step s (.opIngest (.payload p) n)).currentReplayBuffer
          show framesSorted (ingest s (.payload p) n).1.currentReplayBuffer
          rw [hbuf]
          unfold framesSorted
          rw [List.chain'_append]
          refine ⟨hsort, List.chain'_singleton _, ?_⟩
          intro x hx y hy
          have hxm : x ∈ s.currentReplayBuffer := List.mem_of_mem_getLast? hx
          have hyv : (⟨n, rawPlayers p⟩ : Frame) = y := by
            simpa using hy
          rw [← hyv]
          exact le_trans (hbound x hxm) ht
        · intro f hf
          show f.t ≤ n
          rw [show (step s (.opIngest (.payload p) n)).currentReplayBuffer
              = s.currentReplayBuffer ++ [⟨n, rawPlayers p⟩] from hbuf] at hf
          rcases List.mem_append.mp hf with hf | hf
          · exact le_trans (hbound f hf) ht
          · simp only [List.mem_singleton] at hf
            rw [hf]
        · intro r hr
          rw [show (step s (.opIngest (.payload p) n)).savedReplays
              = s.savedReplays from hflags.2] at hr
          exact hsaved r hr
      · have hrec' : s.isRecording = false := by
          revert hrec; cases s.isRecording <;> simp
        have hstate : (ingest s (.payload p) n).1
            = { s with players := applyLive s.players p n } := by
          simp [ingest, hrec']
        show bufInv n ((ingest s (.payload p) n).1)
        rw [hstate]
        exact ⟨hsort, fun f hf => le_trans (hbound f hf) ht, hsaved⟩
  | opStart n =>
    show bufInv n (recordStart s).1
    unfold recordStart
    by_cases h : s.isRecording = true
    · rw [if_pos h]
      exact ⟨hsort, fun f hf => le_trans (hbound f hf) ht, hsaved⟩
    · rw [if_neg h]
      exact ⟨List.chain'_nil, by simp, hsaved⟩
  | opStop n =>
    show bufInv n (recordStop s n).1
    unfold recordStop
    by_cases h : s.isRecording = true
    · rw [if_pos h]
      by_cases hl : s.currentReplayBuffer.length > 0
      · rw [if_pos hl]
        refine ⟨hsort, fun f hf => le_trans (hbound f hf) ht, ?_⟩
        intro r hr
        rcases List.mem_append.mp hr with hr | hr
        · exact hsaved r hr
        · simp only [List.mem_singleton] at hr
          rw [hr]
          exact hsort
      · rw [if_neg hl]
        exact ⟨hsort, fun f hf => le_trans (hbound f hf) ht, hsaved⟩
    · rw [if_neg h]
      exact ⟨hsort, fun f hf => le_trans (hbound f hf) ht, hsaved⟩
  | opGetData n =>
    exact ⟨hsort, fun f hf => le_trans (hbound f hf) ht, hsaved⟩

theorem run_bufInv : ∀ (ops : List Op) (t : Nat) (s : ServerState),
    bufInv t s → timesFrom t ops = true → ∃ t', bufInv t' (run s ops)
  | [], t, _, hinv, _ => ⟨t, hinv⟩
  | op :: ops, t, s, hinv, htimes => by
    simp only [timesFrom, Bool.and_eq_true, decide_eq_true_eq] at htimes
    exact run_bufInv ops (opNow op) (step s op)
      (bufInv_step t s op hinv htimes.1) htimes.2

/-- C8: once `stop()` seals a ReplayRecord, no later operation changes it:
any get that returned its frames keeps returning exactly those frames after
one more operation of any kind, its listing metadata survives every
operation, and on any run from process start with non-decreasing clock every
sealed replay's frames are in non-decreasing `capturedAt` order. -/
theorem C8_sealed_immutable (ops : List Op) (op : Op) (rid : String)
    (fs : List Frame) (hmono : timesFrom 0 ops = true) :
    (getReplay (run initState ops) rid = Except.ok fs →
      getReplay (step (run initState ops) op) rid = Except.ok fs)
    ∧ (∀ mr ∈ listReplays (run initState ops),
        mr ∈ listReplays (step (run initState ops) op))
    ∧ (∀ r ∈ (run initState ops).savedReplays, framesSorted r.frames) := by
  refine ⟨?_, ?_, ?_⟩
  · intro h
    rcases step_savedReplays (run initState ops) op with ⟨tail, htail⟩
    exact getReplay_of_savedReplays_append _ _ tail rid fs htail h
  · intro mr hmr
    rcases step_savedReplays (run initState ops) op with ⟨tail, htail⟩
    unfold listReplays at hmr ⊢
    rw [htail, List.map_append]
    exact List.mem_append.mpr (Or.inl hmr)
  · have h0 : bufInv 0 initState :=
      ⟨List.chain'_nil, by simp [initState], by simp [initState]⟩
    rcases run_bufInv ops 0 initState h0 hmono with ⟨t', _, _, h3⟩
    exact h3

theorem C8_witness :
    getReplay (step (run initState
        [.opStart 1, .opIngest (.payload (.batch [])) 2, .opStop 3])
      (.opStart 4)) "replay_3" = Except.ok [⟨2, []⟩] :=
  (C8_sealed_immutable [.opStart 1, .opIngest (.payload (.batch [])) 2, .opStop 3]
    (.opStart 4) "replay_3" [⟨2, []⟩] (by decide)).1 (by rfl)

/-! ### At most one live entry per id, last write wins (C6) -/

theorem goodMap_setEntry (m : LiveMap) (k : String) (v : LivePlayer)
    (hv : v.name = some k) (h : goodMap m) : goodMap (setEntry m k v) := by
  obtain ⟨hnd, hnames⟩ := h
  unfold setEntry
  by_cases hany : m.any (fun e => e.1 = k) = true
  · rw [if_pos hany]
    constructor
    · have hkeys : (m.map (fun e => if e.1 = k then (k, v) else e)).map Prod.fst
          = m.map Prod.fst := by
        rw [List.map_map]
        apply List.map_congr_left
        intro e _
        by_cases hek : e.1 = k
        · simp [hek]
        · simp [hek]
      rw [hkeys]
      exact hnd
    · intro e he
      rcases List.mem_map.mp he with ⟨e', he', hfe⟩
      by_cases hek : e'.1 = k
      · rw [if_pos hek] at hfe
        rw [← hfe]
        exact hv
      · rw [if_neg hek] at hfe
        rw [← hfe]
        exact hnames e' he'
  · rw [if_neg hany]
    constructor
    · rw [List.map_append]
      rw [List.nodup_append]
      refine ⟨hnd, List.nodup_singleton k, ?_⟩
      intro a ha hak
      simp only [List.map_cons, List.map_nil, List.mem_singleton] at hak
      subst hak
      apply hany
      rw [List.any_eq_true]
      rcases List.mem_map.mp ha with ⟨e, he, hea⟩
      exact ⟨e, he, by simp [hea]⟩
    · intro e he
      rcases List.mem_append.mp he with he | he
      · exact hnames e he
      · simp only [List.mem_singleton] at he
        rw [he]
        exact hv

theorem goodMap_applyRecord (m : LiveMap) (q : PlayerRecord) (now : Nat)
    (h : goodMap m) : goodMap (applyRecord m q now) := by
  cases hq : q.name with
  | none => simpa [applyRecord, hq] using h
  | some s =>
    by_cases hs : s = ""
    · simpa [applyRecord, hq, hs] using h
    · rw [applyRecord_eq_setEntry m q s now hq hs]
      exact goodMap_setEntry m s (storeRec q now) (by simp [storeRec, hq]) h

theorem goodMap_applyLive (now : Nat) : ∀ (p : Payload) (m : LiveMap),
    goodMap m → goodMap (applyLive m p now)
  | .single q, m, h => goodMap_applyRecord m q now h
  | .batch [], _, h => h
  | .batch (q :: ps), m, h =>
    goodMap_applyLive now (.batch ps) (applyRecord m q now)
      (goodMap_applyRecord m q now h)

theorem goodMap_sweep (now : Nat) (m : LiveMap) (h : goodMap m) :
    goodMap (sweep now m) := by
  obtain ⟨hnd, hnames⟩ := h
  constructor
  · exact List.Nodup.sublist ((List.filter_sublist m).map Prod.fst) hnd
  · intro e he
    exact hnames e (List.mem_of_mem_filter he)

theorem goodMap_step (s : ServerState) (op : Op) (h : goodMap s.players) :
    goodMap (step s op).players := by
  cases op with
  | opIngest b n =>
    cases b with
    | missingData => exact h
    | invalidJson => exact h
    | payload p =>
      show goodMap (ingest s (.payload p) n).1.players
      rw [ingest_players]
      exact goodMap_applyLive n p s.players h
  | opStart n =>
    show goodMap (recordStart s).1.players
    rw [recordStart_players]
    exact h
  | opStop n =>
    show goodMap (recordStop s n).1.players
    rw [recordStop_players]
    exact h
  | opGetData n => exact goodMap_sweep n s.players h

theorem goodMap_run : ∀ (ops : List Op) (s : ServerState),
    goodMap s.players → goodMap (run s ops).players
  | [], _, h => h
  | op :: ops, s, h => goodMap_run ops (step s op) (goodMap_step s op h)

theorem filter_key_nil_of_not_mem (k : String) (m : LiveMap)
    (h : k ∉ m.map Prod.fst) : m.filter (fun e => e.1 = k) = [] := by
  rw [List.filter_eq_nil_iff]
  intro e he
  simp only [decide_eq_true_eq]
  intro hek
  exact h (List.mem_map.mpr ⟨e, he, hek⟩)

theorem filter_key_length_le_one (k : String) :
    ∀ m : LiveMap, (m.map Prod.fst).Nodup →
      (m.filter (fun e => e.1 = k)).length ≤ 1
  | [], _ => by simp
  | e :: m, hnd => by
    simp only [List.map_cons, List.nodup_cons] at hnd
    by_cases hek : e.1 = k
    · have hnil : m.filter (fun e => e.1 = k) = [] :=
        filter_key_nil_of_not_mem k m (hek ▸ hnd.1)
      simp [List.filter_cons, hek, hnil]
    · simp only [List.filter_cons, hek, decide_False, if_false]
      exact filter_key_length_le_one k m hnd.2

theorem filter_key_eq_single (k : String) (v : LivePlayer) :
    ∀ l : LiveMap, (l.map Prod.fst).Nodup →
      (∀ e ∈ l, e.1 = k → e = (k, v)) → (k, v) ∈ l →
      l.filter (fun e => e.1 = k) = [(k, v)]
  | [], _, _, hmem => absurd hmem (List.not_mem_nil _)
  | a :: l, hnd, hall, hmem => by
    simp only [List.map_cons, List.nodup_cons] at hnd
    by_cases ha : a.1 = k
    · have hav : a = (k, v) := hall a (List.mem_cons_self a l) ha
      have hnil : l.filter (fun e => e.1 = k) = [] :=
        filter_key_nil_of_not_mem k l (ha ▸ hnd.1)
      simp [List.filter_cons, ha, hnil, hav]
    · have hmem' : (k, v) ∈ l := by
        rcases List.mem_cons.mp hmem with hka | hmem'
        · exact absurd (by rw [← hka] : a.1 = k) ha
        · exact hmem'
      simp only [List.filter_cons, ha, decide_False, if_false]
      exact filter_key_eq_single k v l hnd.2
        (fun e he hek => hall e (List.mem_cons_of_mem a he) hek) hmem'

theorem values_filter_name (k : String) :
    ∀ l : LiveMap, (∀ e ∈ l, e.2.name = some e.1) →
      (l.map (·.2)).filter (fun v => v.name = some k)
        = (l.filter (fun e => e.1 = k)).map (·.2)
  | [], _ => rfl
  | a :: l, hnames => by
    have ha := hnames a (List.mem_cons_self a l)
    have ih := values_filter_name k l
      (fun e he => hnames e (List.mem_cons_of_mem a he))
    by_cases hk : a.1 = k
    · have h1 : (decide (a.2.name = some k)) = true := by rw [ha, hk]; simp
      have h2 : (decide (a.1 = k)) = true := by simp [hk]
      simp [List.filter_cons, h1, h2, ih]
    · have h1 : (decide (a.2.name = some k)) = false := by rw [ha]; simp [hk]
      have h2 : (decide (a.1 = k)) = false := by simp [hk]
      simp [List.filter_cons, h1, h2, ih]

/-- C6: on every reachable state the live table holds at most one entry per
id; after one more put of a named record the table's entry set for that id
is exactly the new sample with its server timestamp (full replacement, no
merge), and a poll within the staleness window returns exactly one value
carrying that id, equal to the most recently put sample. -/
theorem C6_last_write_wins (ops : List Op) (r : PlayerRecord) (k : String)
    (t0 t1 : Nat) (hname : r.name = some k) (hk : k ≠ "")
    (hfresh : t1 - t0 < staleAfter) :
    ((run initState ops).players.filter (fun e => e.1 = k)).length ≤ 1
    ∧ ((ingest (run initState ops) (.payload (.single r)) t0).1.players.filter
        (fun e => e.1 = k)) = [(k, storeRec r t0)]
    ∧ ((getData (ingest (run initState ops)
          (.payload (.single r)) t0).1 t1).1.players.filter
        (fun e => e.1 = k)) = [(k, storeRec r t0)]
    ∧ ((getData (ingest (run initState ops)
          (.payload (.single r)) t0).1 t1).2.filter
        (fun v => v.name = some k)) = [storeRec r t0] := by
  have hgood : goodMap (run initState ops).players :=
    goodMap_run ops initState ⟨by simp [initState], by simp [initState]⟩
  have hm1 : (ingest (run initState ops) (.payload (.single r)) t0).1.players
      = setEntry (run initState ops).players k (storeRec r t0) := by
    rw [ingest_players]
    exact applyRecord_eq_setEntry _ r k t0 hname hk
  have hgood1 : goodMap (setEntry (run initState ops).players k (storeRec r t0)) :=
    goodMap_setEntry _ k _ (by simp [storeRec, hname]) hgood
  have hfilter1 : ((setEntry (run initState ops).players k (storeRec r t0)).filter
      (fun e => e.1 = k)) = [(k, storeRec r t0)] :=
    filter_key_eq_single k _ _ hgood1.1 (setEntry_key_unique _ k _)
      (setEntry_exists_key _ k _)
  have hkept : (getData (ingest (run initState ops)
        (.payload (.single r)) t0).1 t1).1.players
      = sweep t1 (setEntry (run initState ops).players k (storeRec r t0)) := by
    rw [← hm1]
    rfl
  have hswap : ((sweep t1 (setEntry (run initState ops).players k
        (storeRec r t0))).filter (fun e => e.1 = k))
      = (((setEntry (run initState ops).players k (storeRec r t0)).filter
          (fun e => e.1 = k)).filter
            (fun e => t1 - e.2.t < staleAfter)) := by
    unfold sweep
    rw [List.filter_filter, List.filter_filter]
    apply List.filter_congr
    intro e _
    exact Bool.and_comm _ _
  have hfilter2 : ((sweep t1 (setEntry (run initState ops).players k
        (storeRec r t0))).filter (fun e => e.1 = k)) = [(k, storeRec r t0)] := by
    rw [hswap, hfilter1]
    simp [List.filter_cons, storeRec, hfresh]
  refine ⟨filter_key_length_le_one k _ hgood.1, ?_, ?_, ?_⟩
  · rw [hm1]
    exact hfilter1
  · rw [hkept]
    exact hfilter2
  · have hout : (getData (ingest (run initState ops)
          (.payload (.single r)) t0).1 t1).2
        = (sweep t1 (setEntry (run initState ops).players k
            (storeRec r t0))).map (·.2) := by
      rw [← hm1]
      rfl
    rw [hout]
    rw [values_filter_name k
      (sweep t1 (setEntry (run initState ops).players k (storeRec r t0)))
      (goodMap_sweep t1 _ hgood1).2]
    rw [hfilter2]
    rfl

theorem C6_witness :
    ((getData (ingest (run initState []) (.payload (.single
        ⟨some "D", some 1, some 2, some 3, none⟩)) 0).1 100).2.filter
      (fun v => v.name = some "D"))
      = [storeRec ⟨some "D", some 1, some 2, some 3, none⟩ 0] :=
  (C6_last_write_wins [] ⟨some "D", some 1, some 2, some 3, none⟩ "D" 0 100
    rfl (by decide) (by decide)).2.2.2

end Flowz
